import Mathlib

/-!
Verification of the tmux session/window synchronization engine of
`arc_orchestrator` (frontend `Runs` component and `lib/windowCache.ts`).

JavaScript strings are modelled as `List Char`; the helpers below reproduce
the exact semantics of the JS string operations used by the source
(`split(" ")`, `indexOf(" ")`, `trim`, `startsWith`, template literals).
JS `Map`s (insertion-ordered, unique keys) are modelled as association
lists with insert-or-update-in-place (`mapSet`), first-match lookup
(`mapGet`) and first-match removal (`mapDelete`).

Promises are modelled by giving every pending command a numeric promise id
(`pid`); an operation returns, besides the new state, the list of promise
settlements (`Settle.resolved` / `Settle.rejected`) it performed.
-/

namespace ArcOrchestrator

/-! ## JS string semantics helpers -/

/-- JS `s.split(" ")`: splits on every single space, keeping empty fields
(`"".split(" ") == [""]`, `"a  b".split(" ") == ["a","","b"]`). -/
def splitSp : List Char → List (List Char)
  | [] => [[]]
  | c :: cs =>
    if c = ' ' then [] :: splitSp cs
    else
      match splitSp cs with
      | [] => [[c]]
      | f :: rest => (c :: f) :: rest

/-- JS `rest.indexOf(" ")` followed by the two `slice`s of the `%%data`
parser: `some (before, after)` splits at the first space, `none` when the
string has no space. -/
def breakAtSp : List Char → Option (List Char × List Char)
  | [] => none
  | c :: cs =>
    if c = ' ' then some ([], cs)
    else
      match breakAtSp cs with
      | none => none
      | some (a, b) => some (c :: a, b)

/-- Whitespace characters relevant to JS `String.prototype.trim` for the
ASCII data handled here. -/
def isJsSpace (c : Char) : Bool := c == ' ' || c == '\t' || c == '\n' || c == '\r'

/-- JS `s.trim()`: drop whitespace from both ends. -/
def jsTrim (s : List Char) : List Char :=
  List.rdropWhile isJsSpace (List.dropWhile isJsSpace s)

/-- JS template interpolation of an integer (`` `${i}` ``). -/
def intChars (i : Int) : List Char := (toString i).data

/-! ## Association-list model of JS `Map` -/

/-- JS `map.get(k)` (first matching key; keys are unique in a `Map`). -/
def mapGet {α : Type} (k : List Char) : List (List Char × α) → Option α
  | [] => none
  | (k', v) :: rest => if k' = k then some v else mapGet k rest

/-- JS `map.set(k, v)`: update in place when the key exists (keeping its
insertion position), otherwise append at the end. -/
def mapSet {α : Type} (k : List Char) (v : α) : List (List Char × α) → List (List Char × α)
  | [] => [(k, v)]
  | (k', v') :: rest => if k' = k then (k, v) :: rest else (k', v') :: mapSet k v rest

/-- JS `map.delete(k)`. -/
def mapDelete {α : Type} (k : List Char) : List (List Char × α) → List (List Char × α)
  | [] => []
  | (k', v') :: rest => if k' = k then rest else (k', v') :: mapDelete k rest

/-! ## `src/frontend/src/lib/windowCache.ts` -/

/-- `CacheWindow` from `windowCache.ts`: `{ index: number; id?: string | null }`. -/
structure CacheWindow where
  index : Int
  id : Option (List Char)
deriving DecidableEq

/-- `normalizeId`: `(id ?? "").trim()`. -/
def normalizeId (id : Option (List Char)) : List Char := jsTrim (id.getD [])

/-- `buildWindowCacheKey(scope, sessionName, index, id?)`: key is
`scope/sessionName/id:<trimmed id>` when the trimmed id is non-empty, else
`scope/sessionName/idx:<index>`. -/
def buildWindowCacheKey (scope sessionName : List Char) (index : Int)
    (id : Option (List Char)) : List Char :=
  let normalized := normalizeId id
  let base :=
    if normalized.length ≠ 0 then "id:".data ++ normalized
    else "idx:".data ++ intChars index
  scope ++ '/' :: (sessionName ++ '/' :: base)

/-- `pruneWindowCache(cache, scope, sessionName, windows)`: the source
iterates over a snapshot of the keys and deletes every key that starts
with `scope/sessionName/` and is not the cache key of some window in
`windows`; on the association-list model this is exactly a filter. -/
def pruneWindowCache {α : Type} (cache : List (List Char × α))
    (scope sessionName : List Char) (windows : List CacheWindow) :
    List (List Char × α) :=
  let pfx := scope ++ '/' :: (sessionName ++ ['/'])
  let keep := windows.map (fun w => buildWindowCacheKey scope sessionName w.index w.id)
  cache.filter (fun kv => !(pfx.isPrefixOf kv.1 && !(keep.contains kv.1)))

/-! ## `Runs` component: data types -/

/-- `TmuxWindow` from the `Runs` component:
`{ index: number; id: string; name: string; active: boolean; panes: number }`. -/
structure TmuxWindow where
  index : Int
  id : List Char
  name : List Char
  active : Bool
  panes : Int
deriving DecidableEq

/-- `ControlPending` (`{ command, resolve, reject, data }`); the
resolve/reject callbacks are modelled by the promise id `pid`. -/
structure ControlPending where
  command : List Char
  pid : Nat
  data : List (List Char)
deriving DecidableEq

/-- A promise settlement performed by an operation: `resolve(chunks)` or
`reject(new Error(msg))`. -/
inductive Settle where
  | resolved : Nat → List (List Char) → Settle
  | rejected : Nat → List Char → Settle
deriving DecidableEq

/-- `controlStateRef.current`: the FIFO pending queue and the tag-indexed
in-flight map. -/
structure ControlState where
  pending : List ControlPending
  inflight : List (List Char × ControlPending)
deriving DecidableEq

/-! ## `Runs` component: command text construction -/

/-- Character class of `escapeArg`'s regex `^[A-Za-z0-9_@:\-]+$`. -/
def isPlainArgChar (c : Char) : Bool :=
  (decide ('A' ≤ c) && decide (c ≤ 'Z')) ||
  (decide ('a' ≤ c) && decide (c ≤ 'z')) ||
  (decide ('0' ≤ c) && decide (c ≤ '9')) ||
  c == '_' || c == '@' || c == ':' || c == '-'

/-- `value.replace(/'/g, `'"'"'`)`. -/
def escapeQuotes : List Char → List Char
  | [] => []
  | c :: cs =>
    if c = '\'' then '\'' :: '"' :: '\'' :: '"' :: '\'' :: escapeQuotes cs
    else c :: escapeQuotes cs

/-- `escapeArg`: emit verbatim when the regex `^[A-Za-z0-9_@:\-]+$` matches
(non-empty, all characters in the class), else single-quote with each `'`
escaped as `'"'"'`. -/
def escapeArg (value : List Char) : List Char :=
  if value ≠ [] ∧ value.all isPlainArgChar then value
  else '\'' :: (escapeQuotes value ++ ['\''])

/-- `buildSendKeysControlCommand(target, keys, withEnter)`. -/
def buildSendKeysControlCommand (target keys : List Char) (withEnter : Bool) :
    List (List Char) :=
  let literal := "send-keys -t ".data ++ escapeArg target ++ " -l ".data ++ escapeArg keys
  if !withEnter then [literal]
  else
    let enter := "send-keys -t ".data ++ escapeArg target ++ " Enter".data
    [literal, enter]

/-! ## `Runs` component: octal payload decoding -/

def isOctalDigit (c : Char) : Bool := decide ('0' ≤ c) && decide (c ≤ '7')

def digitVal (c : Char) : Nat := c.toNat - 48

/-- `String.fromCharCode(parseInt(digits, 8))` for three decimal digits:
JS `parseInt` with radix 8 parses the longest valid octal-digit prefix and
yields `NaN` when the first digit is `8` or `9`; `fromCharCode(NaN)` is the
NUL character. -/
def fromOctal3 (d1 d2 d3 : Char) : Char :=
  if isOctalDigit d1 then
    if isOctalDigit d2 then
      if isOctalDigit d3 then
        Char.ofNat ((digitVal d1 * 8 + digitVal d2) * 8 + digitVal d3)
      else Char.ofNat (digitVal d1 * 8 + digitVal d2)
    else Char.ofNat (digitVal d1)
  else Char.ofNat 0

/-- `joined.replace(/\\(\d{3})/g, ...)`: left-to-right scan; a backslash
followed by three decimal digits is replaced by the decoded character,
anything else is copied. -/
def replaceOctal : List Char → List Char
  | '\\' :: d1 :: d2 :: d3 :: rest =>
    if d1.isDigit && d2.isDigit && d3.isDigit then fromOctal3 d1 d2 d3 :: replaceOctal rest
    else '\\' :: replaceOctal (d1 :: d2 :: d3 :: rest)
  | '\\' :: rest => '\\' :: replaceOctal rest
  | c :: rest => c :: replaceOctal rest
  | [] => []

/-- `octalReplaced.replace(/\\\\/g, "\\")`. -/
def collapseBackslashes : List Char → List Char
  | '\\' :: '\\' :: rest => '\\' :: collapseBackslashes rest
  | c :: rest => c :: collapseBackslashes rest
  | [] => []

/-- `decodeTmuxData(chunks)`: join with no separator, substitute the
`\NNN` octal escapes, then collapse doubled backslashes, in that order. -/
def decodeTmuxData (chunks : List (List Char)) : List Char :=
  collapseBackslashes (replaceOctal chunks.flatten)

/-! ## `Runs` component: control-channel correlation layer -/

/-- `resetControlQueues(reason?)`: reject every queued pending entry (FIFO
order) and every in-flight entry, then clear both structures. -/
def resetControlQueues (st : ControlState) (reason : List Char) :
    ControlState × List Settle :=
  (⟨[], []⟩,
    st.pending.map (fun e => Settle.rejected e.pid reason) ++
    st.inflight.map (fun kv => Settle.rejected kv.2.pid reason))

/-- `handleControlLine(line)` restricted to its effect on the correlation
state (`%window-*`, `%session-*`, `%output` and `%error` lines only
schedule refreshes or log and leave the correlation state untouched, which
is the final catch-all branch here). -/
def handleControlLine (st : ControlState) (line : List Char) :
    ControlState × List Settle :=
  if ("%%begin ".data).isPrefixOf line then
    let parts := splitSp line
    let tag := (parts.get? 1).getD []
    match st.pending with
    | [] => (st, [])
    | entry :: rest => (⟨rest, mapSet tag entry st.inflight⟩, [])
  else if ("%%data ".data).isPrefixOf line then
    let rest := line.drop 7
    match breakAtSp rest with
    | none => (st, [])
    | some (tag, data) =>
      match mapGet tag st.inflight with
      | none => (st, [])
      | some entry =>
        ({ st with inflight := mapSet tag { entry with data := entry.data ++ [data] } st.inflight }, [])
  else if ("%%end ".data).isPrefixOf line then
    let parts := splitSp line
    let tag := (parts.get? 1).getD []
    let status := (parts.get? 2).getD ['0']
    match mapGet tag st.inflight with
    | none => (st, [])
    | some entry =>
      let st' := { st with inflight := mapDelete tag st.inflight }
      if status = ['0'] then (st', [Settle.resolved entry.pid entry.data])
      else
        let joined := List.intercalate ['\n'] entry.data
        let msg := if joined = [] then "tmux error ".data ++ status else joined
        (st', [Settle.rejected entry.pid msg])
  else (st, [])

/-- The connection-level mutable state of the `Runs` component that the
control channel reads and writes: `mode.kind === "remote"`,
`controlDisconnected`, `controlRef.current !== null`,
`controlSessionKeyRef.current` and `controlStartedRef.current`. -/
structure ControlSys where
  modeRemote : Bool
  controlDisconnected : Bool
  controlActive : Bool
  controlSessionKey : Option (List Char)
  controlStarted : Bool
  controlState : ControlState
deriving DecidableEq

/-- `controlReady()`. -/
def controlReady (s : ControlSys) : Bool :=
  s.modeRemote && !s.controlDisconnected && s.controlActive &&
  s.controlSessionKey.isSome && s.controlStarted

/-- Fresh component state (all refs at their `useRef` initial values) in
the given mode. -/
def initControlSys (remote : Bool) : ControlSys :=
  ⟨remote, false, false, none, false, ⟨[], []⟩⟩

/-- `startControlSession(sessionName, profile)` up to the asynchronous
`api.startControl` call: record the connection and its correlation key,
clear the disconnected and started flags, reset the queues. -/
def startControlSession (s : ControlSys) (key : List Char) :
    ControlSys × List Settle :=
  let (q, settles) := resetControlQueues s.controlState "control session reset".data
  ({ s with controlActive := true, controlSessionKey := some key,
            controlDisconnected := false, controlStarted := false,
            controlState := q }, settles)

/-- The `.catch` of `api.startControl` inside `startControlSession`. -/
def startControlFailed (s : ControlSys) : ControlSys :=
  { s with controlDisconnected := true }

/-- `stopControlSession()` (no-op when `controlRef.current` is null; note
the source does not null out `controlRef.current` itself). -/
def stopControlSession (s : ControlSys) : ControlSys × List Settle :=
  if !s.controlActive then (s, [])
  else
    let (q, settles) := resetControlQueues s.controlState "control session reset".data
    ({ s with controlState := q, controlSessionKey := none,
              controlDisconnected := false, controlStarted := false }, settles)

/-- Event kinds of the `tmux-control-event` payload. -/
inductive ControlEventKind where
  | lineEv : List Char → ControlEventKind
  | started : ControlEventKind
  | stopped : ControlEventKind
  | closed : ControlEventKind
  | errorEv : ControlEventKind
deriving DecidableEq

/-- The `tmux-control-event` listener body: drop events whose key does not
match the current correlation key, then dispatch on the event kind. -/
def tmuxControlEvent (s : ControlSys) (evKey : List Char)
    (kind : ControlEventKind) : ControlSys × List Settle :=
  if s.controlSessionKey ≠ some evKey then (s, [])
  else
    match kind with
    | .lineEv l =>
      let (q, settles) := handleControlLine s.controlState l
      ({ s with controlState := q }, settles)
    | .started =>
      let (q, settles) := resetControlQueues s.controlState "control session reset".data
      ({ s with controlState := q, controlDisconnected := false }, settles)
    | .stopped =>
      let (q, settles) := resetControlQueues s.controlState "control session stopped".data
      ({ s with controlState := q, controlDisconnected := true,
                controlSessionKey := none }, settles)
    | .closed =>
      let (q, settles) := resetControlQueues s.controlState "control session stopped".data
      ({ s with controlState := q, controlDisconnected := true,
                controlSessionKey := none }, settles)
    | .errorEv => (s, [])

/-- JS truthiness of `controlSessionKeyRef.current` (a nullable string:
both `null` and `""` are falsy). -/
def keyFalsy : Option (List Char) → Bool
  | none => true
  | some s => s.isEmpty

/-- The synchronous part of `sendControlCommand(command)`: reject at once
when the control session is inactive, otherwise append the entry to the
pending queue *before* the underlying send resolves. -/
def sendControlCommand (s : ControlSys) (command : List Char) (pid : Nat) :
    ControlSys × List Settle :=
  if !s.controlActive || keyFalsy s.controlSessionKey then
    (s, [Settle.rejected pid "control session inactive".data])
  else
    ({ s with controlState :=
        { s.controlState with pending := s.controlState.pending ++ [⟨command, pid, []⟩] } },
     [])

/-- JS `array.indexOf(entry)`/`splice` pair of the send-failure handler:
remove the first occurrence of the entry (the queue holds distinct
promise entries, so object identity is entry equality here). -/
def removeEntry (e : ControlPending) : List ControlPending → List ControlPending
  | [] => []
  | x :: xs => if x = e then xs else x :: removeEntry e xs

/-- The `.catch` continuation of `api.controlSend` inside
`sendControlCommand`: remove the failing entry from the pending queue,
mark the connection disconnected, and reject that entry's promise. -/
def sendControlFailed (s : ControlSys) (e : ControlPending) (errMsg : List Char) :
    ControlSys × List Settle :=
  ({ s with controlDisconnected := true,
            controlState :=
              { s.controlState with pending := removeEntry e s.controlState.pending } },
   [Settle.rejected e.pid errMsg])

/-! ## `Runs` component: window-list reconciliation -/

/-- `sessionCacheKeyForScope(scope, session)`. -/
def sessionCacheKeyForScope (scope session : List Char) : List Char :=
  scope ++ '/' :: session

/-- `cacheKeyFor(sessionName, w)` with an explicit scope. -/
def cacheKeyFor (scope sessionName : List Char) (w : TmuxWindow) : List Char :=
  buildWindowCacheKey scope sessionName w.index (some w.id)

/-- Identity key of a raw window inside `normalizeWindows`:
`id:<trimmed id>` when non-empty, else `idx:<index>`. -/
def windowIdentKey (w : TmuxWindow) : List Char :=
  let trimmedId := jsTrim w.id
  if trimmedId ≠ [] then "id:".data ++ trimmedId else "idx:".data ++ intChars w.index

/-- One iteration of the `for (const w of ws)` loop of `normalizeWindows`,
threading the `byKey` map and the name cache. -/
def normalizeStep (scope sessionName : List Char)
    (acc : List (List Char × TmuxWindow) × List (List Char × List Char))
    (w : TmuxWindow) :
    List (List Char × TmuxWindow) × List (List Char × List Char) :=
  let byKey := acc.1
  let cache := acc.2
  let trimmedId := jsTrim w.id
  let key := windowIdentKey w
  let cacheKey := buildWindowCacheKey scope sessionName w.index (some w.id)
  let trimmedName0 := jsTrim w.name
  let cache' := if trimmedName0 ≠ [] then mapSet cacheKey trimmedName0 cache else cache
  let trimmedName :=
    if trimmedName0 ≠ [] then trimmedName0
    else
      match mapGet cacheKey cache with
      | some cached => if cached ≠ [] then cached else trimmedName0
      | none => trimmedName0
  let candidate : TmuxWindow :=
    { w with id := if trimmedId ≠ [] then trimmedId else w.id, name := trimmedName }
  match mapGet key byKey with
  | none => (mapSet key candidate byKey, cache')
  | some existing =>
    let existingName := jsTrim existing.name
    let useCandidate : Bool :=
      decide (trimmedName.length > existingName.length) ||
      (decide (trimmedName.length = existingName.length) && candidate.active && !existing.active)
    (if useCandidate then mapSet key candidate byKey else byKey, cache')

/-- The final `.sort((a, b) => a.index - b.index)`: JS `Array.sort` is
stable, so a stable insertion sort by index models it. -/
def sortByIndex (l : List TmuxWindow) : List TmuxWindow :=
  List.insertionSort (fun a b => a.index ≤ b.index) l

/-- `normalizeWindows(sessionName, ws)` with the ambient cache scope and
the name cache passed explicitly; returns the merged window list and the
updated name cache (the source mutates `nameCacheRef.current` in place). -/
def normalizeWindows (scope sessionName : List Char)
    (nameCache : List (List Char × List Char)) (ws : List TmuxWindow) :
    List TmuxWindow × List (List Char × List Char) :=
  let final := ws.foldl (normalizeStep scope sessionName) ([], nameCache)
  (sortByIndex (final.1.map Prod.snd), final.2)

/-! ## `Runs` component: `selectSession`'s token-guarded async block -/

/-- The UI state and cache tables touched by `selectSession`'s background
fetch. -/
structure AppState where
  windows : List TmuxWindow
  activeWin : Option Int
  activeWinId : Option (List Char)
  activeWinRef : Option Int
  activeWinIdRef : Option (List Char)
  paneText : List Char
  msg : List Char
  pollPaused : Bool
  sessionLoading : Bool
  nameCache : List (List Char × List Char)
  paneCache : List (List Char × List Char)
  windowsCache : List (List Char × List TmuxWindow)
deriving DecidableEq

/-- `normalized.find((w) => w.active) ?? normalized[0] ?? null`. -/
def selPreferred (l : List TmuxWindow) : Option TmuxWindow :=
  match l.find? (fun w => w.active) with
  | some w => some w
  | none => l.head?

/-- The `⚠️ No windows reported ...` message. -/
def noWindowsMsg (sessionName : List Char) : List Char :=
  "⚠️ No windows reported for \"".data ++ sessionName ++
  "\". If this is unexpected, click Refresh.".data

/-- The `void (async () => { ... })()` block of `selectSession` launched
after `token = ++remoteSessionToken.current`. `token` is the captured
staleness token; `cur1` is the value of `remoteSessionToken.current` when
the `getWindows` call resolves (or rejects), `cur2` its value when the
`getPane` call resolves (the only later suspension point; when no pane is
fetched the counter cannot have moved past `cur1`). `fetchedWindows` is
the settled result of `getWindows`, `fetchedPane` the pane text returned
by `getPane`. -/
def selectSessionAsync (scope sessionName : List Char) (token cur1 cur2 : Nat)
    (fetchedWindows : Except (List Char) (List TmuxWindow))
    (fetchedPane : List Char) (st : AppState) : AppState :=
  match fetchedWindows with
  | .error raw =>
    if cur1 ≠ token then st
    else
      { st with
        msg := "⚠️ Failed to load \"".data ++ sessionName ++ "\": ".data ++ raw,
        paneText := "<< ".data ++ raw ++ " >>".data,
        pollPaused := false, sessionLoading := false }
  | .ok rawWindows =>
    if cur1 ≠ token then st
    else
      let nm := normalizeWindows scope sessionName st.nameCache rawWindows
      let normalized := nm.1
      let cacheKey := sessionCacheKeyForScope scope sessionName
      let windowsCache' := mapSet cacheKey normalized st.windowsCache
      match selPreferred normalized with
      | some pw =>
        let pKey := cacheKeyFor scope sessionName pw
        let paneText1 :=
          match mapGet pKey st.paneCache with
          | some cached => if cached ≠ [] then cached else st.paneText
          | none => st.paneText
        -- suspension point: `await getPane(...)`; the token may advance
        -- to `cur2` while the pane fetch is outstanding
        let paneStored := if fetchedPane = [] then [' '] else fetchedPane
        let paneCache1 := mapSet pKey paneStored st.paneCache
        if cur2 ≠ token then
          { st with nameCache := nm.2, windowsCache := windowsCache',
                    paneText := paneText1, paneCache := paneCache1 }
        else
          let paneCache2 := pruneWindowCache paneCache1 scope sessionName
            (normalized.map (fun w => ⟨w.index, some w.id⟩))
          { st with
            nameCache := nm.2, windowsCache := windowsCache',
            windows := normalized,
            paneCache := paneCache2,
            activeWin := some pw.index, activeWinId := some pw.id,
            activeWinRef := some pw.index, activeWinIdRef := some pw.id,
            paneText := paneStored,
            msg := if normalized = [] then noWindowsMsg sessionName else [],
            pollPaused := false, sessionLoading := false }
      | none =>
        let paneCache2 := pruneWindowCache st.paneCache scope sessionName
          (normalized.map (fun w => ⟨w.index, some w.id⟩))
        { st with
          nameCache := nm.2, windowsCache := windowsCache',
          windows := normalized,
          paneCache := paneCache2,
          activeWin := none, activeWinId := none,
          activeWinRef := none, activeWinIdRef := none,
          paneText := [' '],
          msg := if normalized = [] then noWindowsMsg sessionName else [],
          pollPaused := false, sessionLoading := false }

/-- The states of the connection layer reachable through the operations
modelled above, starting from a fresh component. -/
inductive ControlReach : ControlSys → Prop where
  | init : ∀ remote, ControlReach (initControlSys remote)
  | start : ∀ s k, ControlReach s → ControlReach (startControlSession s k).1
  | startFail : ∀ s, ControlReach s → ControlReach (startControlFailed s)
  | stop : ∀ s, ControlReach s → ControlReach (stopControlSession s).1
  | event : ∀ s k kind, ControlReach s → ControlReach (tmuxControlEvent s k kind).1
  | send : ∀ s c pid, ControlReach s → ControlReach (sendControlCommand s c pid).1
  | sendFail : ∀ s e m, ControlReach s → ControlReach (sendControlFailed s e m).1

instance : IsTotal TmuxWindow (fun a b => a.index ≤ b.index) :=
  ⟨fun a b => Int.le_total a.index b.index⟩

instance : IsTrans TmuxWindow (fun a b => a.index ≤ b.index) :=
  ⟨fun _ _ _ h1 h2 => le_trans h1 h2⟩

/-! ## Helper lemmas -/

theorem splitSp_ne_nil (t : List Char) : splitSp t ≠ [] := by
  induction t with
  | nil => simp [splitSp]
  | cons c cs ih =>
    simp only [splitSp]
    by_cases h : c = ' '
    · simp [h]
    · simp only [h, if_false]
      cases hs : splitSp cs with
      | nil => simp
      | cons f rest => simp

theorem splitSp_no_space (t : List Char) (h : ∀ c ∈ t, c ≠ ' ') : splitSp t = [t] := by
  induction t with
  | nil => rfl
  | cons c cs ih =>
    have hc : c ≠ ' ' := h c (by simp)
    have ih' := ih (fun x hx => h x (by simp [hx]))
    simp [splitSp, hc, ih']

theorem splitSp_append_sp (a b : List Char) (ha : ∀ c ∈ a, c ≠ ' ') :
    splitSp (a ++ ' ' :: b) = a :: splitSp b := by
  induction a with
  | nil => simp [splitSp]
  | cons c cs ih =>
    have hc : c ≠ ' ' := ha c (by simp)
    have ih' := ih (fun x hx => ha x (by simp [hx]))
    simp only [List.cons_append, splitSp, if_neg hc]
    rw [show cs.append (' ' :: b) = cs ++ ' ' :: b from rfl, ih']

theorem isPrefixOf_append_self (p t : List Char) : p.isPrefixOf (p ++ t) = true := by
  induction p with
  | nil => simp [List.isPrefixOf]
  | cons a as ih => simp [List.isPrefixOf, ih]

/-! ## Claim C6: octal payload decoding -/

/-- C6: `decodeTmuxData` concatenates the accumulated lines with no
separator, substitutes each `\NNN` three-digit-octal escape, then
collapses doubled backslashes, in that order: decoding is invariant under
pre-concatenating the chunks; the payload `\134` decodes to a single
backslash; a literal doubled backslash decodes to a single backslash (and
octal substitution runs before the collapse, as `\\134` shows). -/
theorem decodeTmuxData_octal_then_collapse :
    (∀ chunks : List (List Char), decodeTmuxData chunks = decodeTmuxData [chunks.flatten]) ∧
    decodeTmuxData [['\\', '1', '3', '4']] = ['\\'] ∧
    decodeTmuxData [['\\', '\\']] = ['\\'] ∧
    decodeTmuxData [['\\', '1'], ['3', '4']] = ['\\'] ∧
    decodeTmuxData [['\\', '\\', '1', '3', '4']] = ['\\'] := by
  refine ⟨fun chunks => ?_, by decide, by decide, by decide, by decide⟩
  simp [decodeTmuxData]

/-! ## Claim C9: send-keys command construction -/

/-- C9: `buildSendKeysControlCommand` with `withEnter = true` yields
exactly `send-keys -t <target> -l <keys>` then `send-keys -t <target>
Enter`, and with `withEnter = false` only the first; a value consisting of
characters in `[A-Za-z0-9_@:-]` is emitted verbatim and any other value is
single-quoted with each `'` escaped as `'"'"'`; keys `ls -la` with target
`arc:0` produce the two expected commands. -/
theorem buildSendKeysControlCommand_shape :
    (∀ target keys : List Char,
      buildSendKeysControlCommand target keys true =
        ["send-keys -t ".data ++ escapeArg target ++ " -l ".data ++ escapeArg keys,
         "send-keys -t ".data ++ escapeArg target ++ " Enter".data]) ∧
    (∀ target keys : List Char,
      buildSendKeysControlCommand target keys false =
        ["send-keys -t ".data ++ escapeArg target ++ " -l ".data ++ escapeArg keys]) ∧
    (∀ v : List Char, v ≠ [] → v.all isPlainArgChar = true → escapeArg v = v) ∧
    (∀ v : List Char, ¬(v ≠ [] ∧ v.all isPlainArgChar = true) →
      escapeArg v = '\'' :: (escapeQuotes v ++ ['\''])) ∧
    buildSendKeysControlCommand "arc:0".data "ls -la".data true =
      ["send-keys -t arc:0 -l 'ls -la'".data, "send-keys -t arc:0 Enter".data] := by
  refine ⟨fun t k => ?_, fun t k => ?_, fun v h1 h2 => ?_, fun v h => ?_, by decide⟩
  · simp [buildSendKeysControlCommand]
  · simp [buildSendKeysControlCommand]
  · simp [escapeArg, h1, h2]
  · simp only [escapeArg, if_neg h]

/-- Witness for C9 at concrete inputs. -/
theorem buildSendKeysControlCommand_shape_witness :
    escapeArg "arc:0".data = "arc:0".data ∧
    escapeArg "ls -la".data = '\'' :: (escapeQuotes "ls -la".data ++ ['\'']) :=
  ⟨buildSendKeysControlCommand_shape.2.2.1 "arc:0".data (by decide) (by decide),
   buildSendKeysControlCommand_shape.2.2.2.1 "ls -la".data (by decide)⟩

/-! ## Claim C8: cache pruning -/

/-- C8: `pruneWindowCache` keeps exactly the entries that either lie
outside the `scope/session/` prefix or whose full key is the cache key of
some window of the given list; in particular the spec's concrete example
prunes `scope/a/id:1` and keeps `scope/a/idx:0` and `scope/b/idx:1`. -/
theorem pruneWindowCache_exact :
    (∀ (α : Type) (cache : List (List Char × α)) (scope session : List Char)
       (ws : List CacheWindow) (k : List Char) (v : α),
      ((k, v) ∈ pruneWindowCache cache scope session ws ↔
        ((k, v) ∈ cache ∧
         ((scope ++ '/' :: (session ++ ['/'])).isPrefixOf k = true →
           k ∈ ws.map (fun w => buildWindowCacheKey scope session w.index w.id))))) ∧
    pruneWindowCache
      [("scope/a/id:1".data, (1 : Nat)), ("scope/a/idx:0".data, 0), ("scope/b/idx:1".data, 1)]
      "scope".data "a".data [⟨0, none⟩] =
      [("scope/a/idx:0".data, 0), ("scope/b/idx:1".data, 1)] := by
  refine ⟨fun α cache scope session ws k v => ?_, by decide⟩
  simp only [pruneWindowCache]
  constructor
  · intro hmem
    have h := List.mem_filter.mp hmem
    refine ⟨h.1, fun hp => ?_⟩
    have hb := h.2
    rw [hp, Bool.not_eq_true', Bool.true_and, Bool.not_eq_false'] at hb
    exact List.elem_iff.mp hb
  · rintro ⟨hm, h⟩
    refine List.mem_filter.mpr ⟨hm, ?_⟩
    by_cases hp : (scope ++ '/' :: (session ++ ['/'])).isPrefixOf k = true
    · have hc : (ws.map (fun w => buildWindowCacheKey scope session w.index w.id)).contains k
          = true := List.elem_iff.mpr (h hp)
      rw [hp, hc]
      rfl
    · rw [Bool.not_eq_true] at hp
      rw [hp]
      rfl

/-- Witness for C8: a kept entry, via the characterization. -/
theorem pruneWindowCache_exact_witness :
    ("scope/a/idx:0".data, (0 : Nat)) ∈
      pruneWindowCache [("scope/a/idx:0".data, (0 : Nat))] "scope".data "a".data [⟨0, none⟩] :=
  (pruneWindowCache_exact.1 Nat _ _ _ _ _ _).mpr ⟨by decide, fun _ => by decide⟩

/-! ## Control-line parsing lemmas -/

theorem not_begin_of_end (u : List Char) :
    ("%%begin ".data).isPrefixOf ("%%end ".data ++ u) = false := rfl

theorem not_data_of_end (u : List Char) :
    ("%%data ".data).isPrefixOf ("%%end ".data ++ u) = false := rfl

theorem splitSp_begin (t : List Char) (ht : ∀ c ∈ t, c ≠ ' ') :
    splitSp ("%%begin ".data ++ t) = ["%%begin".data, t] := by
  rw [show "%%begin ".data ++ t = "%%begin".data ++ ' ' :: t from rfl,
      splitSp_append_sp _ _ (by decide), splitSp_no_space t ht]

theorem splitSp_end_two (t status : List Char)
    (ht : ∀ c ∈ t, c ≠ ' ') (hs : ∀ c ∈ status, c ≠ ' ') :
    splitSp ("%%end ".data ++ (t ++ ' ' :: status)) = ["%%end".data, t, status] := by
  rw [show "%%end ".data ++ (t ++ ' ' :: status) = "%%end".data ++ ' ' :: (t ++ ' ' :: status)
        from rfl,
      splitSp_append_sp _ _ (by decide), splitSp_append_sp _ _ ht,
      splitSp_no_space status hs]

theorem splitSp_end_one (t : List Char) (ht : ∀ c ∈ t, c ≠ ' ') :
    splitSp ("%%end ".data ++ t) = ["%%end".data, t] := by
  rw [show "%%end ".data ++ t = "%%end".data ++ ' ' :: t from rfl,
      splitSp_append_sp _ _ (by decide), splitSp_no_space t ht]

theorem handleControlLine_begin (st : ControlState) (t : List Char)
    (ht : ∀ c ∈ t, c ≠ ' ') (e : ControlPending) (rest : List ControlPending)
    (hp : st.pending = e :: rest) :
    handleControlLine st ("%%begin ".data ++ t) = (⟨rest, mapSet t e st.inflight⟩, []) := by
  unfold handleControlLine
  rw [isPrefixOf_append_self, splitSp_begin t ht, hp]
  simp only [List.get?_cons_succ, List.get?_cons_zero, Option.getD_some]
  simp

theorem handleControlLine_begin_empty (st : ControlState) (t : List Char)
    (hp : st.pending = []) :
    handleControlLine st ("%%begin ".data ++ t) = (st, []) := by
  unfold handleControlLine
  rw [isPrefixOf_append_self, hp]
  simp

/-- C5 (amended): processing `%%end <tag> <status>` for an in-flight tag
removes the entry; status `"0"` resolves the promise with the accumulated
lines; any other status rejects it with the accumulated lines joined by
newlines when that joined string is non-empty, else with the generic
`tmux error <status>` message (so a single empty accumulated line also
yields the generic message). -/
theorem handleControlLine_end (st : ControlState) (t status : List Char)
    (ht : ∀ c ∈ t, c ≠ ' ') (hs : ∀ c ∈ status, c ≠ ' ')
    (e : ControlPending) (he : mapGet t st.inflight = some e) :
    handleControlLine st ("%%end ".data ++ (t ++ ' ' :: status)) =
      ({ st with inflight := mapDelete t st.inflight },
       if status = ['0'] then [Settle.resolved e.pid e.data]
       else [Settle.rejected e.pid
         (if List.intercalate ['\n'] e.data = [] then "tmux error ".data ++ status
          else List.intercalate ['\n'] e.data)]) := by
  unfold handleControlLine
  rw [not_begin_of_end, not_data_of_end, isPrefixOf_append_self, splitSp_end_two t status ht hs]
  simp only [List.get?_cons_succ, List.get?_cons_zero, Option.getD_some]
  rw [he]
  simp
  by_cases h0 : status = ['0'] <;> simp [h0]

/-! ## Claim C10: `%%end` without a status field -/

/-- C10: a `%%end <tag>` line with no status field at all defaults the
status to `"0"`: the in-flight entry is removed and its promise resolves
with the accumulated lines. -/
theorem handleControlLine_end_no_status (st : ControlState) (t : List Char)
    (ht : ∀ c ∈ t, c ≠ ' ') (e : ControlPending) (he : mapGet t st.inflight = some e) :
    handleControlLine st ("%%end ".data ++ t) =
      ({ st with inflight := mapDelete t st.inflight }, [Settle.resolved e.pid e.data]) := by
  unfold handleControlLine
  rw [not_begin_of_end, not_data_of_end, isPrefixOf_append_self, splitSp_end_one t ht]
  simp only [List.get?_cons_succ, List.get?_cons_zero, List.get?_nil, Option.getD_some,
    Option.getD_none]
  rw [he]
  simp

/-- Witness for C10 at a concrete in-flight entry. -/
theorem handleControlLine_end_no_status_witness :
    handleControlLine ⟨[], [("t".data, ⟨"cmd".data, 7, ["ok".data]⟩)]⟩ ("%%end ".data ++ "t".data) =
      (⟨[], []⟩, [Settle.resolved 7 ["ok".data]]) := by
  rw [handleControlLine_end_no_status _ "t".data (by decide) ⟨"cmd".data, 7, ["ok".data]⟩
    (by decide)]
  decide

/-! ## Claim C5: `%%end` settlement -/

/-- C5 counterexample: an in-flight entry whose accumulated lines are the
single empty line (`data == [""]`, produced by a `%%data <tag> ` line) is
rejected by `%%end t 1` with the generic `tmux error 1` message, not with
the joined accumulated lines, even though lines *were* accumulated: the
source tests `entry.data.join("\n") || ...` for JS truthiness, not the
queue for emptiness. -/
theorem handleControlLine_end_empty_line_cex :
    (handleControlLine ⟨[], [("t".data, ⟨"cmd".data, 3, [[]]⟩)]⟩ "%%end t 1".data).2 =
      [Settle.rejected 3 "tmux error 1".data] ∧
    "tmux error 1".data ≠ List.intercalate ['\n'] [([] : List Char)] ∧
    ([([] : List Char)] : List (List Char)) ≠ [] := ⟨by decide, by decide, by decide⟩

/-- Witness for C5's amended theorem (`handleControlLine_end`) at a
concrete resolving reply. -/
theorem handleControlLine_end_witness :
    handleControlLine ⟨[], [("t".data, ⟨"c".data, 4, ["ok".data]⟩)]⟩
        ("%%end ".data ++ ("t".data ++ ' ' :: "0".data)) =
      (⟨[], []⟩, [Settle.resolved 4 ["ok".data]]) := by
  rw [handleControlLine_end _ "t".data "0".data (by decide) (by decide)
    ⟨"c".data, 4, ["ok".data]⟩ (by decide)]
  decide

/-! ## Claim C3: FIFO correlation -/

/-- C3: commands issued in order A, B, C are appended to the pending queue
in issue order by the synchronous part of `sendControlCommand` (before the
underlying send resolves; a successful send performs no further state
change, so the completion order of the sends is irrelevant), and each
incoming `%%begin` line pops the oldest pending entry, so the three tags
are associated with A, B and C respectively; a `%%begin` arriving with an
empty pending queue is ignored and changes no state. -/
theorem fifo_begin_correlation :
    (∀ (s : ControlSys) (A B C t1 t2 t3 : List Char),
      s.controlActive = true → keyFalsy s.controlSessionKey = false →
      s.controlState = ⟨[], []⟩ →
      (∀ c ∈ t1, c ≠ ' ') → (∀ c ∈ t2, c ≠ ' ') → (∀ c ∈ t3, c ≠ ' ') →
      t1 ≠ t2 → t1 ≠ t3 → t2 ≠ t3 →
      (let s3 := (sendControlCommand
          ((sendControlCommand ((sendControlCommand s A 0).1) B 1).1) C 2).1
       let q1 := handleControlLine s3.controlState ("%%begin ".data ++ t1)
       let q2 := handleControlLine q1.1 ("%%begin ".data ++ t2)
       let q3 := handleControlLine q2.1 ("%%begin ".data ++ t3)
       q3.1.inflight = [(t1, ⟨A, 0, []⟩), (t2, ⟨B, 1, []⟩), (t3, ⟨C, 2, []⟩)] ∧
       q3.1.pending = [] ∧ q1.2 = [] ∧ q2.2 = [] ∧ q3.2 = [])) ∧
    (∀ (st : ControlState) (t : List Char), st.pending = [] →
      handleControlLine st ("%%begin ".data ++ t) = (st, [])) := by
  constructor
  · intro s A B C t1 t2 t3 hA hk hq h1 h2 h3 h12 h13 h23
    have hsend : (sendControlCommand
        ((sendControlCommand ((sendControlCommand s A 0).1) B 1).1) C 2).1.controlState =
        ⟨[⟨A, 0, []⟩, ⟨B, 1, []⟩, ⟨C, 2, []⟩], []⟩ := by
      simp [sendControlCommand, hA, hk, hq]
    simp only [hsend]
    rw [handleControlLine_begin _ t1 h1 ⟨A, 0, []⟩ [⟨B, 1, []⟩, ⟨C, 2, []⟩] rfl]
    rw [handleControlLine_begin _ t2 h2 ⟨B, 1, []⟩ [⟨C, 2, []⟩] rfl]
    rw [handleControlLine_begin _ t3 h3 ⟨C, 2, []⟩ [] rfl]
    refine ⟨?_, rfl, rfl, rfl, rfl⟩
    simp [mapSet, h12, h13, h23]
  · intro st t hp
    exact handleControlLine_begin_empty st t hp

/-- Witness for C3 at three concrete commands and tags. -/
theorem fifo_begin_correlation_witness :
    (let s : ControlSys := ⟨true, false, true, some "k".data, false, ⟨[], []⟩⟩
     let s3 := (sendControlCommand
        ((sendControlCommand ((sendControlCommand s "a".data 0).1) "b".data 1).1) "c".data 2).1
     let q1 := handleControlLine s3.controlState ("%%begin ".data ++ "1".data)
     let q2 := handleControlLine q1.1 ("%%begin ".data ++ "2".data)
     let q3 := handleControlLine q2.1 ("%%begin ".data ++ "3".data)
     q3.1.inflight = [("1".data, ⟨"a".data, 0, []⟩), ("2".data, ⟨"b".data, 1, []⟩),
       ("3".data, ⟨"c".data, 2, []⟩)] ∧
     q3.1.pending = [] ∧ q1.2 = [] ∧ q2.2 = [] ∧ q3.2 = []) :=
  fifo_begin_correlation.1 ⟨true, false, true, some "k".data, false, ⟨[], []⟩⟩
    "a".data "b".data "c".data "1".data "2".data "3".data rfl rfl rfl
    (by decide) (by decide) (by decide) (by decide) (by decide) (by decide)

/-! ## Claim C1: readiness after a "started" event -/

/-- C1 (evidence for the code bug): after `startControlSession` and a
"started" lifecycle event for the connection's correlation key, every
conjunct of `controlReady()` holds except `controlStartedRef.current`,
which no code path ever sets to `true`, so `controlReady()` is still
`false`; moreover `controlStarted` is `false` (and hence `controlReady()`
is `false`) in every reachable connection state. -/
theorem controlReady_false_after_started :
    (let s1 := (startControlSession (initControlSys true) "k".data).1
     let s2 := (tmuxControlEvent s1 "k".data ControlEventKind.started).1
     s2.modeRemote = true ∧ s2.controlDisconnected = false ∧ s2.controlActive = true ∧
     s2.controlSessionKey = some "k".data ∧ s2.controlStarted = false ∧
     controlReady s2 = false) ∧
    (∀ s, ControlReach s → s.controlStarted = false ∧ controlReady s = false) := by
  refine ⟨by decide, fun s hs => ?_⟩
  have hstart : s.controlStarted = false := by
    induction hs with
    | init remote => rfl
    | start s k _ _ => simp [startControlSession]
    | startFail s _ ih => simpa [startControlFailed] using ih
    | stop s _ ih =>
      by_cases h : (!s.controlActive) = true
      · simpa [stopControlSession, h] using ih
      · simp [stopControlSession, h]
    | event s k kind _ ih =>
      by_cases h : s.controlSessionKey ≠ some k
      · simpa [tmuxControlEvent, h] using ih
      · cases kind <;> simpa [tmuxControlEvent, h] using ih
    | send s c pid _ ih =>
      by_cases h : (!s.controlActive || keyFalsy s.controlSessionKey) = true
      · simpa [sendControlCommand, h] using ih
      · simpa [sendControlCommand, h] using ih
    | sendFail s e m _ ih => simpa [sendControlFailed] using ih
  exact ⟨hstart, by simp [controlReady, hstart]⟩

/-- Witness for C1's reachability conjunct at the initial state. -/
theorem controlReady_false_after_started_witness :
    (initControlSys true).controlStarted = false ∧ controlReady (initControlSys true) = false :=
  controlReady_false_after_started.2 (initControlSys true) (ControlReach.init true)

/-! ## Claim C2: send failure and outstanding commands -/

/-- C2 counterexample: with two outstanding pending commands A (pid 0) and
B (pid 1), a send failure of B marks the connection disconnected and
rejects only B; A remains queued and no settlement of A's promise occurs,
so not every outstanding pending command is rejected. -/
theorem sendControlFailed_leaves_pending_cex :
    (let s : ControlSys := ⟨true, false, true, some "k".data, false,
        ⟨[⟨"a".data, 0, []⟩, ⟨"b".data, 1, []⟩], []⟩⟩
     let r := sendControlFailed s ⟨"b".data, 1, []⟩ "boom".data
     r.1.controlDisconnected = true ∧
     r.1.controlState.pending = [⟨"a".data, 0, []⟩] ∧
     r.2 = [Settle.rejected 1 "boom".data] ∧
     (∀ x ∈ r.2, x = Settle.rejected 1 "boom".data)) := by decide

/-- C2 amended: a send failure marks the connection disconnected (so
`controlReady` becomes false), removes exactly the failing entry from the
pending queue and rejects exactly that entry's promise; every other
outstanding command stays queued, and outstanding commands are only
rejected wholesale by a queue reset (stop, start, or a lifecycle event),
which rejects all pending then all in-flight entries and empties both. -/
theorem sendControlFailed_only_failing_rejected :
    (∀ (s : ControlSys) (e : ControlPending) (m : List Char),
      (sendControlFailed s e m).1.controlDisconnected = true ∧
      controlReady (sendControlFailed s e m).1 = false ∧
      (sendControlFailed s e m).2 = [Settle.rejected e.pid m] ∧
      (sendControlFailed s e m).1.controlState.pending = removeEntry e s.controlState.pending ∧
      (sendControlFailed s e m).1.controlState.inflight = s.controlState.inflight ∧
      (∀ x ∈ s.controlState.pending, x ≠ e →
        x ∈ (sendControlFailed s e m).1.controlState.pending)) ∧
    (∀ (st : ControlState) (reason : List Char),
      (resetControlQueues st reason).1 = ⟨[], []⟩ ∧
      (resetControlQueues st reason).2 =
        st.pending.map (fun e => Settle.rejected e.pid reason) ++
        st.inflight.map (fun kv => Settle.rejected kv.2.pid reason)) := by
  have hmem : ∀ (e x : ControlPending) (l : List ControlPending),
      x ∈ l → x ≠ e → x ∈ removeEntry e l := by
    intro e x l
    induction l with
    | nil => intro h _; exact absurd h (by simp)
    | cons y ys ih =>
      intro hx hne
      by_cases hy : y = e
      · simp only [removeEntry, if_pos hy]
        rcases List.mem_cons.mp hx with h | h
        · exact absurd (h.trans hy) hne
        · exact h
      · simp only [removeEntry, if_neg hy]
        rcases List.mem_cons.mp hx with h | h
        · exact List.mem_cons.mpr (Or.inl h)
        · exact List.mem_cons.mpr (Or.inr (ih h hne))
  refine ⟨fun s e m => ⟨rfl, by simp [controlReady, sendControlFailed], rfl, rfl, rfl,
    fun x hx hne => hmem e x s.controlState.pending hx hne⟩, fun st reason => ⟨rfl, rfl⟩⟩

/-- Witness for C2's amended theorem: the non-failing entry survives. -/
theorem sendControlFailed_only_failing_rejected_witness :
    (⟨"a".data, 0, []⟩ : ControlPending) ∈
      (sendControlFailed
        ⟨true, false, true, some "k".data, false,
          ⟨[⟨"a".data, 0, []⟩, ⟨"b".data, 1, []⟩], []⟩⟩
        ⟨"b".data, 1, []⟩ "boom".data).1.controlState.pending :=
  (sendControlFailed_only_failing_rejected.1
      ⟨true, false, true, some "k".data, false,
        ⟨[⟨"a".data, 0, []⟩, ⟨"b".data, 1, []⟩], []⟩⟩
      ⟨"b".data, 1, []⟩ "boom".data).2.2.2.2.2
    ⟨"a".data, 0, []⟩ (by decide) (by decide)

/-! ## Claim C4: staleness-token guard of `selectSession` -/

/-- C4 counterexample: a pane fetch that resolves after the token advanced
beyond the captured value (token 1, current 2) still writes the fetched
pane text into the pane-text cache table before the staleness check, so a
stale continuation does mutate one of the three cache tables. -/
theorem selectSessionAsync_stale_pane_write_cex :
    (let st0 : AppState := ⟨[], none, none, none, none, [], [], true, true, [], [], []⟩
     let r := selectSessionAsync "s".data "a".data 1 1 2
        (Except.ok [⟨0, "@1".data, "sh".data, true, 1⟩]) "hello".data st0
     (1 : Nat) ≠ 2 ∧
     r.paneCache ≠ st0.paneCache ∧
     r.paneCache = [("s/a/id:@1".data, "hello".data)]) := by decide

/-- C4 amended: a result that resolves under a stale token at the
window-list stage is discarded with no mutation at all; when the token
advances only while the pane fetch is outstanding, the stale continuation
performs no UI-state mutation and, beyond the window-list/name-cache
writes already performed while the token was still current, changes only
the pane-text cache, into which it stores the fetched pane (under the key
of the window it was fetched for) before the staleness check. -/
theorem selectSessionAsync_token_guard :
    (∀ (scope session : List Char) (tok cur1 cur2 : Nat) fw
       (fp : List Char) (st : AppState), cur1 ≠ tok →
      selectSessionAsync scope session tok cur1 cur2 fw fp st = st) ∧
    (∀ (scope session : List Char) (tok cur2 : Nat) (raw : List TmuxWindow)
       (fp : List Char) (st : AppState) (pw : TmuxWindow), cur2 ≠ tok →
      selPreferred (normalizeWindows scope session st.nameCache raw).1 = some pw →
      (let r := selectSessionAsync scope session tok tok cur2 (Except.ok raw) fp st
       r.windows = st.windows ∧ r.activeWin = st.activeWin ∧
       r.activeWinId = st.activeWinId ∧ r.activeWinRef = st.activeWinRef ∧
       r.activeWinIdRef = st.activeWinIdRef ∧ r.pollPaused = st.pollPaused ∧
       r.sessionLoading = st.sessionLoading ∧ r.msg = st.msg ∧
       r.paneCache =
         mapSet (cacheKeyFor scope session pw) (if fp = [] then [' '] else fp) st.paneCache)) := by
  constructor
  · intro scope session tok cur1 cur2 fw fp st h
    cases fw with
    | error raw => simp [selectSessionAsync, h]
    | ok raw => simp [selectSessionAsync, h]
  · intro scope session tok cur2 raw fp st pw hcur hpw
    simp [selectSessionAsync, hpw, hcur]

/-- Witness for C4's amended theorem at the counterexample's inputs. -/
theorem selectSessionAsync_token_guard_witness :
    (let st0 : AppState := ⟨[], none, none, none, none, [], [], true, true, [], [], []⟩
     let r := selectSessionAsync "s".data "a".data 1 1 2
        (Except.ok [⟨0, "@1".data, "sh".data, true, 1⟩]) "hello".data st0
     r.windows = st0.windows ∧ r.activeWin = st0.activeWin ∧
     r.activeWinId = st0.activeWinId ∧ r.activeWinRef = st0.activeWinRef ∧
     r.activeWinIdRef = st0.activeWinIdRef ∧ r.pollPaused = st0.pollPaused ∧
     r.sessionLoading = st0.sessionLoading ∧ r.msg = st0.msg ∧
     r.paneCache =
       mapSet (cacheKeyFor "s".data "a".data ⟨0, "@1".data, "sh".data, true, 1⟩)
         (if ("hello".data : List Char) = [] then [' '] else "hello".data) st0.paneCache) :=
  selectSessionAsync_token_guard.2 "s".data "a".data 1 2
    [⟨0, "@1".data, "sh".data, true, 1⟩] "hello".data
    ⟨[], none, none, none, none, [], [], true, true, [], [], []⟩
    ⟨0, "@1".data, "sh".data, true, 1⟩ (by decide) (by decide)

/-! ## Claim C7: window-list reconciliation -/

theorem dropWhile_eq_self_of_append {p : Char → Bool} (t r A : List Char)
    (hr : t ++ r = A) (hA : List.dropWhile p A = A) :
    List.dropWhile p t = t := by
  cases t with
  | nil => rfl
  | cons c cs =>
    rw [List.dropWhile_cons]
    by_cases hc : p c = true
    · exfalso
      rw [← hr, List.cons_append, List.dropWhile_cons, if_pos hc] at hA
      have hlen : (List.dropWhile p (cs ++ r)).length = (cs ++ r).length + 1 := by
        rw [hA]; simp
      have hle := (List.dropWhile_suffix p (l := cs ++ r)).length_le
      omega
    · simp [hc]

theorem jsTrim_idem (s : List Char) : jsTrim (jsTrim s) = jsTrim s := by
  unfold jsTrim
  obtain ⟨r, hr⟩ := List.rdropWhile_prefix isJsSpace (List.dropWhile isJsSpace s)
  rw [dropWhile_eq_self_of_append _ r _ hr (List.dropWhile_idempotent _ _),
      List.rdropWhile_idempotent]

theorem windowIdentKey_candidate (w : TmuxWindow) (nm : List Char) :
    windowIdentKey
      { w with id := if jsTrim w.id ≠ [] then jsTrim w.id else w.id, name := nm } =
      windowIdentKey w := by
  unfold windowIdentKey
  by_cases h : jsTrim w.id ≠ []
  · simp [h, jsTrim_idem]
  · simp [h]

theorem mapSet_keys {α : Type} (k : List Char) (v : α) (m : List (List Char × α)) :
    (mapSet k v m).map Prod.fst =
      if k ∈ m.map Prod.fst then m.map Prod.fst else m.map Prod.fst ++ [k] := by
  induction m with
  | nil => simp [mapSet]
  | cons kv rest ih =>
    obtain ⟨k', v'⟩ := kv
    by_cases h : k' = k
    · subst h
      have hmem : k' ∈ List.map Prod.fst ((k', v') :: rest) := by
        simp only [List.map_cons]
        exact List.mem_cons_self _ _
      rw [show mapSet k' v ((k', v') :: rest) = (k', v) :: rest from by rw [mapSet, if_pos rfl],
          if_pos hmem]
      simp only [List.map_cons]
    · simp only [mapSet, if_neg h, List.map_cons, ih]
      by_cases hm : k ∈ rest.map Prod.fst
      · simp [hm, h, Ne.symm h]
      · simp [hm, h, Ne.symm h]

theorem mem_mapSet {α : Type} (k : List Char) (v : α) (m : List (List Char × α))
    (kv : List Char × α) (h : kv ∈ mapSet k v m) : kv = (k, v) ∨ kv ∈ m := by
  induction m with
  | nil =>
    cases h with
    | head => exact Or.inl rfl
    | tail _ h2 => cases h2
  | cons kv' rest ih =>
    obtain ⟨k', v'⟩ := kv'
    by_cases hk : k' = k
    · rw [mapSet, if_pos hk] at h
      rcases List.mem_cons.mp h with h1 | h1
      · exact Or.inl h1
      · exact Or.inr (List.mem_cons.mpr (Or.inr h1))
    · rw [mapSet, if_neg hk] at h
      rcases List.mem_cons.mp h with h1 | h1
      · exact Or.inr (List.mem_cons.mpr (Or.inl h1))
      · rcases ih h1 with h2 | h2
        · exact Or.inl h2
        · exact Or.inr (List.mem_cons.mpr (Or.inr h2))

theorem mapSet_keys_nodup {α : Type} (k : List Char) (v : α) (m : List (List Char × α))
    (h : (m.map Prod.fst).Nodup) : ((mapSet k v m).map Prod.fst).Nodup := by
  rw [mapSet_keys]
  by_cases hm : k ∈ m.map Prod.fst
  · simpa [hm] using h
  · simp [hm, List.nodup_append, h]

theorem normalizeStep_inv (scope session : List Char)
    (acc : List (List Char × TmuxWindow) × List (List Char × List Char)) (w : TmuxWindow)
    (h1 : (acc.1.map Prod.fst).Nodup) (h2 : ∀ kv ∈ acc.1, windowIdentKey kv.2 = kv.1) :
    (((normalizeStep scope session acc w).1.map Prod.fst).Nodup ∧
      ∀ kv ∈ (normalizeStep scope session acc w).1, windowIdentKey kv.2 = kv.1) := by
  have hcand : ∀ nm : List Char, windowIdentKey
      { w with id := if jsTrim w.id ≠ [] then jsTrim w.id else w.id, name := nm } =
      windowIdentKey w := fun nm => windowIdentKey_candidate w nm
  unfold normalizeStep
  cases hget : mapGet (windowIdentKey w) acc.1 with
  | none =>
    simp only [hget]
    refine ⟨mapSet_keys_nodup _ _ _ h1, fun kv hkv => ?_⟩
    rcases mem_mapSet _ _ _ _ hkv with h | h
    · rw [h]
      exact hcand _
    · exact h2 kv h
  | some existing =>
    simp only [hget]
    by_cases huse : (decide ((if jsTrim w.name ≠ [] then jsTrim w.name
        else match mapGet (buildWindowCacheKey scope session w.index (some w.id)) acc.2 with
          | some cached => if cached ≠ [] then cached else jsTrim w.name
          | none => jsTrim w.name).length > (jsTrim existing.name).length) ||
        (decide ((if jsTrim w.name ≠ [] then jsTrim w.name
        else match mapGet (buildWindowCacheKey scope session w.index (some w.id)) acc.2 with
          | some cached => if cached ≠ [] then cached else jsTrim w.name
          | none => jsTrim w.name).length = (jsTrim existing.name).length) && w.active &&
          !existing.active)) = true
    · simp only [huse, if_true]
      refine ⟨mapSet_keys_nodup _ _ _ h1, fun kv hkv => ?_⟩
      rcases mem_mapSet _ _ _ _ hkv with h | h
      · rw [h]
        exact hcand _
      · exact h2 kv h
    · simp only [Bool.not_eq_true] at huse
      simp only [huse]
      exact ⟨h1, h2⟩

theorem normalizeFoldl_inv (scope session : List Char) (ws : List TmuxWindow)
    (acc : List (List Char × TmuxWindow) × List (List Char × List Char))
    (h1 : (acc.1.map Prod.fst).Nodup) (h2 : ∀ kv ∈ acc.1, windowIdentKey kv.2 = kv.1) :
    (((ws.foldl (normalizeStep scope session) acc).1.map Prod.fst).Nodup ∧
      ∀ kv ∈ (ws.foldl (normalizeStep scope session) acc).1, windowIdentKey kv.2 = kv.1) := by
  induction ws generalizing acc with
  | nil => exact ⟨h1, h2⟩
  | cons w rest ih =>
    have hstep := normalizeStep_inv scope session acc w h1 h2
    exact ih (normalizeStep scope session acc w) hstep.1 hstep.2

/-- C7: `normalizeWindows` groups rows by identity key (the merged output
contains each identity key at most once), resolves an empty name from the
cached name for the row's identity key, merges two rows that collapse to
the same identity key by keeping the strictly longer resolved name and,
on equal lengths, the row marked active (the earlier row on a tie), and
returns the merged rows sorted by index ascending; including the spec's
two concrete examples. -/
theorem normalizeWindows_merge :
    (∀ (scope session : List Char) (cache : List (List Char × List Char))
       (ws : List TmuxWindow),
      List.Sorted (fun a b : TmuxWindow => a.index ≤ b.index)
        (normalizeWindows scope session cache ws).1) ∧
    (∀ (scope session : List Char) (cache : List (List Char × List Char))
       (ws : List TmuxWindow),
      ((normalizeWindows scope session cache ws).1.map windowIdentKey).Nodup) ∧
    (∀ (scope session : List Char) (cache : List (List Char × List Char))
       (w : TmuxWindow) (n : List Char),
      jsTrim w.name = [] →
      mapGet (buildWindowCacheKey scope session w.index (some w.id)) cache = some n →
      n ≠ [] →
      normalizeWindows scope session cache [w] =
        ([{ w with id := if jsTrim w.id ≠ [] then jsTrim w.id else w.id, name := n }], cache)) ∧
    (∀ (scope session : List Char) (cache : List (List Char × List Char))
       (w1 w2 : TmuxWindow),
      windowIdentKey w1 = windowIdentKey w2 →
      jsTrim w1.name ≠ [] → jsTrim w2.name ≠ [] →
      (normalizeWindows scope session cache [w1, w2]).1 =
        [if (jsTrim w2.name).length > (jsTrim w1.name).length ∨
            ((jsTrim w2.name).length = (jsTrim w1.name).length ∧
              w2.active = true ∧ w1.active = false)
         then { w2 with id := if jsTrim w2.id ≠ [] then jsTrim w2.id else w2.id,
                        name := jsTrim w2.name }
         else { w1 with id := if jsTrim w1.id ≠ [] then jsTrim w1.id else w1.id,
                        name := jsTrim w1.name }]) ∧
    (normalizeWindows "s".data "a".data []
        [⟨0, "@1".data, [], false, 1⟩, ⟨0, "@1".data, "shell".data, false, 1⟩]).1 =
      [⟨0, "@1".data, "shell".data, false, 1⟩] ∧
    (normalizeWindows "s".data "a".data []
        [⟨0, "@1".data, "sh".data, false, 1⟩, ⟨1, "@1".data, "sh".data, true, 1⟩]).1 =
      [⟨1, "@1".data, "sh".data, true, 1⟩] := by
  refine ⟨fun scope session cache ws => ?_, fun scope session cache ws => ?_,
    fun scope session cache w n hn hcache hne => ?_,
    fun scope session cache w1 w2 hkey hn1 hn2 => ?_, by decide, by decide⟩
  · exact List.sorted_insertionSort _ _
  · have hinv := normalizeFoldl_inv scope session ws ([], cache) (by simp) (by simp)
    have hvals : (((ws.foldl (normalizeStep scope session) ([], cache)).1.map
        Prod.snd).map windowIdentKey).Nodup := by
      have hmap : ((ws.foldl (normalizeStep scope session) ([], cache)).1.map
          Prod.snd).map windowIdentKey =
          (ws.foldl (normalizeStep scope session) ([], cache)).1.map Prod.fst := by
        rw [List.map_map]
        exact List.map_congr_left (fun kv hkv => hinv.2 kv hkv)
      rw [hmap]
      exact hinv.1
    have hperm : List.Perm
        (sortByIndex ((ws.foldl (normalizeStep scope session) ([], cache)).1.map Prod.snd))
        ((ws.foldl (normalizeStep scope session) ([], cache)).1.map Prod.snd) :=
      List.perm_insertionSort _ _
    exact ((hperm.map windowIdentKey).nodup_iff).mpr hvals
  · simp only [normalizeWindows, List.foldl_cons, List.foldl_nil, normalizeStep, hn, hcache]
    simp [hne, mapSet, mapGet, sortByIndex, List.insertionSort]
  · have hkey' : windowIdentKey w2 = windowIdentKey w1 := hkey.symm
    have hname1 : jsTrim (jsTrim w1.name) = jsTrim w1.name := jsTrim_idem _
    by_cases hc : (jsTrim w2.name).length > (jsTrim w1.name).length ∨
        ((jsTrim w2.name).length = (jsTrim w1.name).length ∧
          w2.active = true ∧ w1.active = false)
    · simp only [normalizeWindows, List.foldl_cons, List.foldl_nil]
      simp [normalizeStep, hn1, hn2, hkey', hname1, mapGet, mapSet, sortByIndex,
        List.insertionSort, hc]
      have hc2 : (jsTrim w1.name).length < (jsTrim w2.name).length ∨
          (((jsTrim w2.name).length = (jsTrim w1.name).length ∧ w2.active = true) ∧
            w1.active = false) := by
        rcases hc with h | ⟨h1, h2, h3⟩
        · exact Or.inl h
        · exact Or.inr ⟨⟨h1, h2⟩, h3⟩
      rw [if_pos hc2]
      simp [List.insertionSort, List.orderedInsert]
    · simp only [normalizeWindows, List.foldl_cons, List.foldl_nil]
      simp [normalizeStep, hn1, hn2, hkey', hname1, mapGet, mapSet, sortByIndex,
        List.insertionSort, hc]
      have hc2 : ¬((jsTrim w1.name).length < (jsTrim w2.name).length ∨
          (((jsTrim w2.name).length = (jsTrim w1.name).length ∧ w2.active = true) ∧
            w1.active = false)) := by
        intro h
        apply hc
        rcases h with h | ⟨⟨h1, h2⟩, h3⟩
        · exact Or.inl h
        · exact Or.inr ⟨h1, h2, h3⟩
      rw [if_neg hc2]
      simp [List.insertionSort, List.orderedInsert]

/-- Witness for C7's conditional conjuncts at concrete rows. -/
theorem normalizeWindows_merge_witness :
    normalizeWindows "s".data "a".data [("s/a/id:@1".data, "shell".data)]
        [⟨0, "@1".data, [], false, 1⟩] =
      ([⟨0, "@1".data, "shell".data, false, 1⟩], [("s/a/id:@1".data, "shell".data)]) ∧
    (normalizeWindows "s".data "a".data []
        [⟨0, "@1".data, "ab".data, false, 1⟩, ⟨1, "@1".data, "cde".data, false, 1⟩]).1 =
      [⟨1, "@1".data, "cde".data, false, 1⟩] := by
  constructor
  · exact normalizeWindows_merge.2.2.1 "s".data "a".data
      [("s/a/id:@1".data, "shell".data)] ⟨0, "@1".data, [], false, 1⟩ "shell".data
      (by decide) (by decide) (by decide)
  · rw [normalizeWindows_merge.2.2.2.1 "s".data "a".data []
      ⟨0, "@1".data, "ab".data, false, 1⟩ ⟨1, "@1".data, "cde".data, false, 1⟩
      (by decide) (by decide) (by decide)]
    decide

end ArcOrchestrator
